/-
  Verification of the copper-processing-unit reward engine.

  Shallow embedding of the core services:
    - src/backend/app/services/twab.py          (TWAB calculator, hash-power batch)
    - src/backend/app/services/streak.py        (streak / tier state machine)
    - src/backend/app/services/distribution.py  (trigger + proportional allocator)
    - src/backend/app/services/snapshot.py      (snapshot creation, excluded-wallet filter)
    - src/backend/app/models/models.py          (tables and their check constraints)
    - src/backend/app/config.py                 (tier configuration, settings)

  Modelling conventions:
    - Python `datetime` values are modelled as exact rational numbers of seconds
      (`ℚ`); `timedelta.total_seconds()` is then exact subtraction and the
      midpoint `t + (next - t)/2` is exact rational division.
    - Python `Decimal` arithmetic is modelled as exact rational arithmetic (ℚ).
    - Python `int(...)` applied to a Decimal truncates toward zero; `pyInt`
      reproduces this on ℚ.
    - Database tables are lists of rows in insertion order; SQL `ORDER BY` is
      modelled as a deterministic stable insertion sort by the ordered-by key.
    - Check constraints declared on the tables in models.py are enforced at
      persist time: an insert violating them raises, which the services catch
      and turn into a rollback (`executeDistribution`'s except branch).
-/
import Mathlib

set_option maxRecDepth 10000

/-- Python `int(q)` on a `Decimal`/rational value: truncation toward zero. -/
def pyInt (q : ℚ) : ℤ :=
  if q < 0 then -(Int.floor (-q)) else Int.floor q

/-- Model of `TIER_CONFIG[t]["multiplier"]` from config.py (1.0, 1.25, 1.5, 2.5, 3.5, 5.0).
    The Python dict has keys 1..6 only; outside that range indexing raises
    KeyError, which is unreachable under the `valid_tier` check constraint
    (`current_tier` between 1 and 6); we totalise with 0 there. -/
def tierMultiplier (t : ℤ) : ℚ :=
  if t = 1 then 1
  else if t = 2 then 5/4
  else if t = 3 then 3/2
  else if t = 4 then 5/2
  else if t = 5 then 7/2
  else if t = 6 then 5
  else 0

/-- Model of `TIER_THRESHOLDS[t]` from config.py, in hours (0, 6, 12, 72, 168, 720).
    Same domain convention as `tierMultiplier`. -/
def tierThreshold (t : ℤ) : ℚ :=
  if t = 1 then 0
  else if t = 2 then 6
  else if t = 3 then 12
  else if t = 4 then 72
  else if t = 5 then 168
  else if t = 6 then 720
  else 0

/-- Segment bounds for sample `i` in `TWABService._compute_twab`
    (twab.py lines 100-123), before clamping: the first segment starts at the
    window start, the last ends at the window end, and interior bounds are
    midpoints to the neighbouring timestamps. `balances` is the ascending
    (timestamp, balance) list; out-of-range reads default to `(0, 0)` and are
    never hit for the indices the loop uses. -/
def segBounds (balances : List (ℚ × ℤ)) (start finish : ℚ) (i : ℕ) : ℚ × ℚ :=
  let t := (balances.getD i (0, 0)).1
  if i = 0 then
    let segEnd :=
      if 1 < balances.length then
        let next := (balances.getD (i + 1) (0, 0)).1
        t + (next - t) / 2
      else finish
    (start, segEnd)
  else if i = balances.length - 1 then
    let prev := (balances.getD (i - 1) (0, 0)).1
    (prev + (t - prev) / 2, finish)
  else
    let prev := (balances.getD (i - 1) (0, 0)).1
    let next := (balances.getD (i + 1) (0, 0)).1
    (prev + (t - prev) / 2, t + (next - t) / 2)

/-- Model of `TWABService._compute_twab` (twab.py lines 75-130): time-weighted average
    balance of an ascending (timestamp, balance) series over `[start, finish)`.
    Empty series or non-positive window give 0; a single sample returns that
    balance; otherwise each sample's clamped segment contributes
    `balance × duration` and the result is the truncated quotient by the
    window duration. -/
def computeTwab (balances : List (ℚ × ℤ)) (start finish : ℚ) : ℤ :=
  if balances = [] then 0
  else
    let totalDuration := finish - start
    if totalDuration ≤ 0 then 0
    else if balances.length = 1 then (balances.getD 0 (0, 0)).2
    else
      let weightedSum : ℚ :=
        (List.range balances.length).foldl
          (fun acc i =>
            let sb := segBounds balances start finish i
            let segStart := max sb.1 start
            let segEnd := min sb.2 finish
            let duration := segEnd - segStart
            if 0 < duration then acc + ((balances.getD i (0, 0)).2 : ℚ) * duration
            else acc)
          0
      pyInt (weightedSum / totalDuration)

/-- A joined `Snapshot.timestamp` × `Balance` row as both TWAB queries read it
    (twab.py lines 61-71 and 193-202): wallet, snapshot timestamp, balance.
    The `balances` table's `non_negative_balance` check constraint
    (models.py line 61) is carried as a hypothesis where needed. -/
structure BalanceRec where
  wallet : String
  ts : ℚ
  bal : ℤ
deriving DecidableEq

/-- The SQL window filter `timestamp >= start AND timestamp <= end` shared by
    both TWAB queries. -/
def recWindow (start finish : ℚ) (r : BalanceRec) : Bool :=
  decide (start ≤ r.ts) && decide (r.ts ≤ finish)

/-- Model of `ORDER BY (wallet, timestamp)` key of the batch query (twab.py line 200). -/
def lexLe (a b : BalanceRec) : Bool :=
  decide (a.wallet < b.wallet) || (a.wallet == b.wallet && decide (a.ts ≤ b.ts))

/-- Model of `ORDER BY timestamp` key of the single-wallet query (twab.py line 69). -/
def tsLe (a b : BalanceRec) : Bool :=
  decide (a.ts ≤ b.ts)

/-- Insert into a sorted list, keeping the first position compatible with `le`
    (stable: an element is placed before later equal-key elements). -/
def ordInsert {α : Type} (le : α → α → Bool) (x : α) : List α → List α
  | [] => [x]
  | y :: l => if le x y then x :: y :: l else y :: ordInsert le x l

/-- Deterministic stable sort modelling SQL `ORDER BY` / Python's stable sort. -/
def isort {α : Type} (le : α → α → Bool) : List α → List α
  | [] => []
  | x :: l => ordInsert le x (isort le l)

/-- First-occurrence key order of Python's `defaultdict` grouping
    (twab.py lines 208-210): dict keys iterate in insertion order. -/
def uniqWallets (l : List BalanceRec) : List String :=
  l.foldl (fun acc r => if r.wallet ∈ acc then acc else acc ++ [r.wallet]) []

/-- The group a wallet gets in `wallet_balances` (twab.py lines 208-210): the
    subsequence of the (wallet, timestamp)-ordered rows carrying that wallet. -/
def walletGroup (l : List BalanceRec) (w : String) : List BalanceRec :=
  l.filter (fun r => r.wallet == w)

/-- Model of `TIER_CONFIG[t]["name"]` from config.py. -/
def tierName (t : ℤ) : String :=
  if t = 1 then "Ore"
  else if t = 2 then "Raw Copper"
  else if t = 3 then "Refined"
  else if t = 4 then "Industrial"
  else if t = 5 then "Master Miner"
  else if t = 6 then "Diamond Hands"
  else ""

/-- A `hold_streaks` row (models.py lines 69-91); `valid_tier` constrains
    `currentTier` to 1..6. -/
structure StreakRow where
  wallet : String
  streakStart : ℚ
  currentTier : ℤ
  lastSellAt : Option ℚ
  updatedAt : ℚ
deriving DecidableEq

/-- Model of `HashPowerInfo` (twab.py lines 31-39). -/
structure HashPowerInfo where
  wallet : String
  twab : ℤ
  multiplier : ℚ
  hashPower : ℚ
  tier : ℤ
  tierName : String
deriving DecidableEq

/-- Descending hash-power order used by `hash_powers.sort(key=..., reverse=True)`
    (twab.py line 250). -/
def hpGe (a b : HashPowerInfo) : Bool :=
  decide (b.hashPower ≤ a.hashPower)

/-- Model of `TWABService.calculate_all_hash_powers` (twab.py lines 171-256): one
    window-filtered read ordered by (wallet, timestamp), grouped per wallet in
    key-insertion order, per-wallet TWAB via `computeTwab`, minimum-balance
    filter, tier lookup defaulting to 1, hash power = twab × multiplier,
    descending sort, and truncation only for a truthy limit (Python `if limit:`
    is false for both `None` and `0`). -/
def calculateAllHashPowers (records : List BalanceRec) (streaks : List StreakRow)
    (start finish : ℚ) (minBalance : ℤ) (limit : Option ℕ) : List HashPowerInfo :=
  let allBalances := isort lexLe (records.filter (recWindow start finish))
  if allBalances = [] then []
  else
    let wallets := uniqWallets allBalances
    let hashPowers := wallets.filterMap (fun w =>
      let balances := (walletGroup allBalances w).map (fun r => (r.ts, r.bal))
      let twab := computeTwab balances start finish
      if twab < minBalance then none
      else
        let tier := ((streaks.find? (fun s => s.wallet == w)).map
          (fun s => s.currentTier)).getD 1
        some { wallet := w, twab := twab, multiplier := tierMultiplier tier,
               hashPower := (twab : ℚ) * tierMultiplier tier, tier := tier,
               tierName := tierName tier })
    let sorted := isort hpGe hashPowers
    match limit with
    | some n => if n ≠ 0 then sorted.take n else sorted
    | none => sorted

/-- Model of `TWABService.calculate_twab` (twab.py lines 48-73): the single-wallet
    query filters by wallet and window, orders by timestamp ascending, and
    hands the (timestamp, balance) list to `computeTwab`. -/
def calculateTwab (records : List BalanceRec) (wallet : String)
    (start finish : ℚ) : ℤ :=
  let rows := isort tsLe (records.filter
    (fun r => r.wallet == wallet && recWindow start finish r))
  computeTwab (rows.map (fun r => (r.ts, r.bal))) start finish

/-- Model of `StreakService.get_streak` (streak.py lines 50-63): lookup by wallet
    (primary key). -/
def findStreak (streaks : List StreakRow) (wallet : String) : Option StreakRow :=
  streaks.find? (fun s => s.wallet == wallet)

/-- Model of `StreakService.start_streak` (streak.py lines 112-131): unconditionally
    insert a tier-1 row with `streak_start = now`. -/
def startStreak (streaks : List StreakRow) (wallet : String) (now : ℚ) :
    StreakRow × List StreakRow :=
  let st : StreakRow :=
    { wallet := wallet, streakStart := now, currentTier := 1,
      lastSellAt := none, updatedAt := now }
  (st, streaks ++ [st])

/-- Model of `StreakService.get_or_create_streak` (streak.py lines 133-146): return the
    existing row unchanged, else create one via `startStreak`. -/
def getOrCreateStreak (streaks : List StreakRow) (wallet : String) (now : ℚ) :
    StreakRow × List StreakRow :=
  match findStreak streaks wallet with
  | some st => (st, streaks)
  | none => startStreak streaks wallet now

/-- Model of `StreakService.process_sell` (streak.py lines 148-189): unknown wallet is
    an explicit `none`; otherwise drop the tier by one (floored at 1), reset
    `streak_start` to `now - thresholdHours(newTier)` and stamp
    `last_sell_at = now`. Hours convert to seconds (×3600). -/
def processSell (streaks : List StreakRow) (wallet : String) (now : ℚ) :
    Option StreakRow × List StreakRow :=
  match findStreak streaks wallet with
  | none => (none, streaks)
  | some st =>
    let newTier := max 1 (st.currentTier - 1)
    let newStreakStart := now - tierThreshold newTier * 3600
    let st' : StreakRow :=
      { st with currentTier := newTier, streakStart := newStreakStart,
                lastSellAt := some now, updatedAt := now }
    (some st', streaks.map (fun s => if s.wallet == wallet then st' else s))

/-- Model of `RecipientShare` (distribution.py lines 48-57). -/
structure RecipientShare where
  wallet : String
  twab : ℤ
  multiplier : ℚ
  hashPower : ℚ
  sharePercentage : ℚ
  amount : ℤ
deriving DecidableEq

/-- Model of `DistributionPlan` (distribution.py lines 37-46). -/
structure DistributionPlan where
  poolAmount : ℤ
  poolValueUsd : ℚ
  totalHashpower : ℚ
  recipientCount : ℕ
  triggerType : String
  recipients : List RecipientShare
deriving DecidableEq

/-- A `distributions` row (models.py lines 149-185). Its check constraints
    (`positive_pool`, `positive_hashpower`, `positive_recipients`,
    `valid_trigger`) are `distRowOk` below. -/
structure DistributionRow where
  poolAmount : ℤ
  poolValueUsd : ℚ
  totalHashpower : ℚ
  recipientCount : ℕ
  triggerType : String
  executedAt : ℚ
deriving DecidableEq

/-- A `distribution_recipients` row (models.py lines 188-216); the uuid foreign
    key is modelled as the index of the parent row in insertion order. -/
structure RecipientRow where
  distributionIndex : ℕ
  wallet : String
  twab : ℤ
  multiplier : ℚ
  hashPower : ℚ
  amountReceived : ℤ
deriving DecidableEq

/-- The single `distribution_lock` row (models.py lines 254-275). Its own
    docstring says it is used with SELECT FOR UPDATE NOWAIT to prevent two
    workers executing the same distribution; nothing outside models.py
    references it. -/
structure LockRow where
  lockedAt : Option ℚ
  lockedBy : Option String
  updatedAt : ℚ
deriving DecidableEq

/-- The single `system_stats` row (models.py lines 230-251), restricted to the
    fields the distribution service touches. -/
structure SystemStatsRow where
  totalDistributed : ℤ
  lastDistributionAt : Option ℚ
  updatedAt : ℚ
deriving DecidableEq

/-- An `excluded_wallets` row (models.py lines 219-227). -/
structure ExcludedRow where
  wallet : String
  reason : String
deriving DecidableEq

/-- The database state the modelled services read and write. -/
structure DBState where
  records : List BalanceRec
  streaks : List StreakRow
  distributions : List DistributionRow
  recipients : List RecipientRow
  excluded : List ExcludedRow
  stats : Option SystemStatsRow
  lock : LockRow
deriving DecidableEq

/-- The settings fields the distribution service reads (config.py lines 69-72
    and the token multiplier, lines 151-154). -/
structure Settings where
  distributionThresholdUsd : ℚ
  distributionMaxHours : ℚ
  minBalanceUsd : ℚ
  tokenMultiplier : ℤ
deriving DecidableEq

/-- Collaborator responses: the Helius pool balance (`get_pool_balance`) and
    the Jupiter COPPER/USD price (`get_copper_price_usd`), both of which fall
    back to 0 on error. -/
structure Externals where
  poolBalance : ℤ
  priceUsd : ℚ
deriving DecidableEq

/-- Model of `DistributionService.get_last_distribution` (distribution.py lines
    151-163): `ORDER BY executed_at DESC LIMIT 1`; on equal timestamps the
    earliest-inserted row is kept (a deterministic model of the unspecified
    SQL tie order). -/
def lastDistribution (db : DBState) : Option DistributionRow :=
  db.distributions.foldl
    (fun acc d =>
      match acc with
      | none => some d
      | some m => if m.executedAt < d.executedAt then some d else some m)
    none

/-- Model of `DistributionService.get_pool_value_usd` (distribution.py lines 137-149):
    raw balance over `TOKEN_MULTIPLIER`, times the USD price. -/
def poolValueUsd (s : Settings) (e : Externals) : ℚ :=
  ((e.poolBalance : ℚ) / (s.tokenMultiplier : ℚ)) * e.priceUsd

/-- The time trigger of `get_pool_status` (distribution.py lines 176-187):
    no prior distribution, or at least `distribution_max_hours` since it. -/
def timeTriggerMet (s : Settings) (db : DBState) (now : ℚ) : Bool :=
  match lastDistribution db with
  | none => true
  | some d => decide (s.distributionMaxHours ≤ (now - d.executedAt) / 3600)

/-- Model of `DistributionService.should_distribute` (distribution.py lines 200-214):
    threshold trigger first, then time trigger, else `(False, "")`. -/
def shouldDistribute (s : Settings) (e : Externals) (db : DBState) (now : ℚ) :
    Bool × String :=
  if decide (s.distributionThresholdUsd ≤ poolValueUsd s e) then (true, "threshold")
  else if timeTriggerMet s db now then (true, "time")
  else (false, "")

/-- The allocation window start (distribution.py lines 244-251): the last
    distribution's `executed_at`, or 24 hours before now. -/
def distWindowStart (db : DBState) (now : ℚ) : ℚ :=
  match lastDistribution db with
  | some d => d.executedAt
  | none => now - 24 * 3600

/-- The eligibility floor in raw tokens (distribution.py lines 253-259):
    `int((min_balance_usd / price) * TOKEN_MULTIPLIER)`, or 0 when the price
    is unavailable (no filtering). -/
def minBalanceTokens (s : Settings) (e : Externals) : ℤ :=
  if 0 < e.priceUsd then pyInt ((s.minBalanceUsd / e.priceUsd) * (s.tokenMultiplier : ℚ))
  else 0

/-- The share loop of `calculate_distribution` (distribution.py lines
    275-289): per wallet, `share = hashPower / totalHp`,
    `amount = int(poolAmount * share)`, dropping wallets whose amount is not
    positive. -/
def planRecipients (poolAmount : ℤ) (totalHp : ℚ)
    (hashPowers : List HashPowerInfo) : List RecipientShare :=
  hashPowers.filterMap (fun hp =>
    let sharePct := hp.hashPower / totalHp
    let amount := pyInt ((poolAmount : ℚ) * sharePct)
    if 0 < amount then
      some { wallet := hp.wallet, twab := hp.twab, multiplier := hp.multiplier,
             hashPower := hp.hashPower, sharePercentage := sharePct * 100,
             amount := amount }
    else none)

/-- Model of `DistributionService.calculate_distribution` (distribution.py lines
    216-298): empty pool, no eligible wallet, or zero total hash power give
    `none` ("nothing to distribute"); otherwise the plan, with trigger type
    "manual" when neither trigger fired. -/
def calculateDistribution (s : Settings) (e : Externals) (now : ℚ)
    (db : DBState) (poolOverride : Option ℤ) : Option DistributionPlan :=
  let poolAmount := poolOverride.getD e.poolBalance
  if poolAmount ≤ 0 then none
  else
    let sd := shouldDistribute s e db now
    let triggerType := if sd.1 then sd.2 else "manual"
    let hashPowers := calculateAllHashPowers db.records db.streaks
      (distWindowStart db now) now (minBalanceTokens s e) none
    if hashPowers = [] then none
    else
      let totalHp := (hashPowers.map (fun hp => hp.hashPower)).sum
      if totalHp = 0 then none
      else
        let recipients := planRecipients poolAmount totalHp hashPowers
        some { poolAmount := poolAmount, poolValueUsd := poolValueUsd s e,
               totalHashpower := totalHp, recipientCount := recipients.length,
               triggerType := triggerType, recipients := recipients }

/-- The check constraints of the `distributions` table (models.py lines
    177-185): positive pool, hash power and recipient count, and a trigger
    type among 'threshold' and 'time'. -/
def distRowOk (d : DistributionRow) : Bool :=
  decide (0 < d.poolAmount) && decide (0 < d.totalHashpower) &&
  decide (0 < d.recipientCount) &&
  (d.triggerType == "threshold" || d.triggerType == "time")

/-- Model of `DistributionService._update_system_stats` (distribution.py lines
    442-454): increment the running total and stamp the time, only when the
    stats row exists. -/
def updateSystemStats (stats : Option SystemStatsRow) (d : DistributionRow)
    (now : ℚ) : Option SystemStatsRow :=
  match stats with
  | none => none
  | some st =>
    some { st with totalDistributed := st.totalDistributed + d.poolAmount,
                   lastDistributionAt := some d.executedAt, updatedAt := now }

/-- Model of `DistributionService.execute_distribution` (distribution.py lines
    300-362): insert the distribution row and its recipient rows and update
    the stats in one commit; a constraint violation raises, is caught, and the
    whole transaction rolls back to the prior state with result `None`. -/
def executeDistribution (plan : DistributionPlan) (now : ℚ) (db : DBState) :
    Option DistributionRow × DBState :=
  let row : DistributionRow :=
    { poolAmount := plan.poolAmount, poolValueUsd := plan.poolValueUsd,
      totalHashpower := plan.totalHashpower,
      recipientCount := plan.recipientCount,
      triggerType := plan.triggerType, executedAt := now }
  if distRowOk row then
    let distId := db.distributions.length
    let recRows := plan.recipients.map (fun r =>
      { distributionIndex := distId, wallet := r.wallet, twab := r.twab,
        multiplier := r.multiplier, hashPower := r.hashPower,
        amountReceived := r.amount : RecipientRow })
    (some row,
     { db with distributions := db.distributions ++ [row],
               recipients := db.recipients ++ recRows,
               stats := updateSystemStats db.stats row now })
  else (none, db)

/-- Model of `check_and_distribute` (distribution.py lines 457-484): the task entry
    point — trigger check, plan, execute. It touches no lock anywhere. -/
def checkAndDistribute (s : Settings) (e : Externals) (now : ℚ) (db : DBState) :
    Option DistributionRow × DBState :=
  let sd := shouldDistribute s e db now
  if sd.1 then
    match calculateDistribution s e now db none with
    | none => (none, db)
    | some plan => executeDistribution plan now db
  else (none, db)

/-- The manual path: call the allocator directly (optionally overriding the
    pool amount) and execute the plan, bypassing the trigger gate — the same
    two service methods the task entry point uses. -/
def manualDistribute (s : Settings) (e : Externals) (now : ℚ) (db : DBState)
    (poolOverride : Option ℤ) : Option DistributionRow × DBState :=
  match calculateDistribution s e now db poolOverride with
  | none => (none, db)
  | some plan => executeDistribution plan now db

/-- Model of `SnapshotService.take_snapshot` (snapshot.py lines 57-126) restricted to
    the rows it creates: accounts of currently excluded wallets are filtered
    out (lines 80-90) and the rest become balance records of this snapshot's
    timestamp. (The snapshot metadata row and stats update carry no fields the
    claims mention and are omitted.) Returns the created records and the new
    state. -/
def takeSnapshot (accounts : List (String × ℤ)) (now : ℚ) (db : DBState) :
    List BalanceRec × DBState :=
  if accounts = [] then ([], db)
  else
    let excludedWallets := db.excluded.map (fun x => x.wallet)
    let validAccounts := accounts.filter (fun a => !(excludedWallets.contains a.1))
    let newRecords := validAccounts.map
      (fun a => { wallet := a.1, ts := now, bal := a.2 : BalanceRec })
    (newRecords, { db with records := db.records ++ newRecords })

/-- Scenario settings: the config.py defaults of threshold $250, 24h maximum
    and $50 minimum balance, with 0 token decimals (`COPPER_TOKEN_DECIMALS`
    is environment-configurable; 0 keeps the raw amounts small). -/
def cfgStd : Settings := ⟨250, 24, 50, 1⟩

/-- An unheld `distribution_lock` row. -/
def lockInit : LockRow := ⟨none, none, 0⟩

/-- Collaborators unavailable: zero pool, zero price. -/
def extZero : Externals := ⟨0, 0⟩

/-- An empty database. -/
def dbEmpty : DBState := ⟨[], [], [], [], [], none, lockInit⟩

/-- Concurrency scenario: pool worth $300 (threshold met), one holder with
    ample balance sampled both before the first run and between the runs. -/
def c1ext : Externals := ⟨300, 1⟩

/-- Database for the concurrency scenario. -/
def c1db : DBState :=
  ⟨[⟨"w", 100, 100⟩, ⟨"w", 5000, 100⟩], [], [], [], [], none, lockInit⟩

/-- First allocation invocation of the concurrency scenario. -/
def c1run1 : Option DistributionRow × DBState :=
  checkAndDistribute cfgStd c1ext 3600 c1db

/-- Second allocation invocation, on the state the first one left. -/
def c1run2 : Option DistributionRow × DBState :=
  checkAndDistribute cfgStd c1ext 7200 c1run1.2

/-- Dust scenario: one raw pool unit, two wallets of equal hash power. -/
def c2db : DBState :=
  ⟨[⟨"a", 50, 100⟩, ⟨"b", 60, 100⟩], [], [], [], [], none, lockInit⟩

/-- Conservation witness scenario: pool 10, one wallet of TWAB 4. -/
def c2wdb : DBState := ⟨[⟨"a", 50, 4⟩], [], [], [], [], none, lockInit⟩

/-- Exclusion scenario: wallet "w" is excluded, but a balance record for it
    predates the exclusion. -/
def c5db : DBState :=
  ⟨[⟨"w", 50, 100⟩], [], [], [], [⟨"w", "lp"⟩], none, lockInit⟩

/-- Snapshot-filter witness scenario: "w" excluded, no balance records yet. -/
def c5wdb : DBState := ⟨[], [], [], [], [⟨"w", "lp"⟩], none, lockInit⟩

/-- Manual-path scenario: pool worth $175 (below the $250 threshold), prior
    distribution 2 hours ago (under 24), one eligible holder. -/
def c6ext : Externals := ⟨500, 7 / 20⟩

/-- Database for the manual-path scenario. -/
def c6db : DBState :=
  ⟨[⟨"w", 100, 200⟩], [], [⟨1, 0, 1, 1, "time", 0⟩], [], [], none, lockInit⟩

/-- A streak table holding one tier-3 wallet (sell-demotion witness input). -/
def c4streaks : List StreakRow := [⟨"w", 0, 3, none, 0⟩]

/-- A streak table holding an existing tier-3 record (idempotence witness). -/
def c9streaks : List StreakRow := [⟨"w", 5, 3, none, 5⟩]

/-- Batch/single agreement witness input: one wallet, one sample. -/
def c10recs : List BalanceRec := [⟨"w", 10, 7⟩]

/-- The hash-power entry the batch computation reports for that input. -/
def c10hp : HashPowerInfo := ⟨"w", 7, 1, 7, 1, "Ore"⟩

/-- The plan the allocator computes in the conservation witness scenario:
    pool 10, one eligible wallet of TWAB 4 at tier 1, full pool to it. -/
def c2wplan : DistributionPlan := ⟨10, 0, 4, 1, "time", [⟨"a", 4, 1, 4, 100, 10⟩]⟩

theorem mem_ordInsert {α : Type} (le : α → α → Bool) (x a : α) (l : List α) :
    a ∈ ordInsert le x l ↔ a = x ∨ a ∈ l := by
  induction l with
  | nil => simp [ordInsert]
  | cons y l ih =>
    simp only [ordInsert]
    split
    · simp [List.mem_cons]
    · simp only [List.mem_cons, ih]
      tauto

theorem mem_isort {α : Type} (le : α → α → Bool) (a : α) (l : List α) :
    a ∈ isort le l ↔ a ∈ l := by
  induction l with
  | nil => simp [isort]
  | cons x l ih => simp [isort, mem_ordInsert, ih]

/-- C3 counterexample: on the series (t=0h, 100), (t=10h, 200) over the window
    [0h, 20h) — in seconds: samples at 0 and 36000, window [0, 72000) — the
    calculator does not return 150: the claimed sample-to-next-sample
    segmentation is not what `_compute_twab` implements. -/
theorem twab_scenario1_not_150 :
    ¬ computeTwab [((0 : ℚ), (100 : ℤ)), (36000, 200)] 0 72000 = 150 := by
  with_unfolding_all decide

/-- C3 (amended): on that series the calculator returns 175 =
    (100·5h + 200·15h)/20h, because `_compute_twab` bounds each sample's
    segment at the midpoints to its neighbours (first segment starts at the
    window start, last ends at the window end). -/
theorem twab_scenario1_midpoint_175 :
    computeTwab [((0 : ℚ), (100 : ℤ)), (36000, 200)] 0 72000 = 175 := by
  with_unfolding_all decide

/-- C8 counterexample: for a single-sample series and the degenerate window
    [5, 5), the TWAB is 0, not the sample's balance 100 — the non-positive
    window guard fires before the single-sample branch. -/
theorem twab_single_sample_degenerate_window :
    ¬ computeTwab [((0 : ℚ), (100 : ℤ))] 5 5 = 100 := by
  with_unfolding_all decide

/-- C8 (amended): for a series containing exactly one sample and every window
    of positive length, the TWAB equals that sample's balance (held constant
    for the whole window); zero-length windows return 0 instead. -/
theorem computeTwab_single_sample (t : ℚ) (b : ℤ) (start finish : ℚ)
    (h : start < finish) : computeTwab [(t, b)] start finish = b := by
  unfold computeTwab
  rw [if_neg (by simp)]
  rw [if_neg (by simp only [not_le]; linarith)]
  rfl

theorem computeTwab_single_sample_witness :
    (0 : ℚ) < 720 ∧ computeTwab [((0 : ℚ), (100 : ℤ))] 0 720 = 100 :=
  ⟨by with_unfolding_all decide, computeTwab_single_sample 0 100 0 720 (by with_unfolding_all decide)⟩

/-- C4: for a wallet with an existing streak at tier 1..6, `processSell` sets
    the tier to max(1, t−1) — i.e. t−1 for t ≥ 2, staying at 1 for t = 1 —
    resets `streak_start` to now minus the new tier's threshold hours, so the
    resulting streak-hours exactly equal the demoted tier's threshold, and
    stamps `last_sell_at = now`. -/
theorem processSell_demotes_to_tier_floor
    (streaks : List StreakRow) (w : String) (now : ℚ) (st : StreakRow)
    (hfind : findStreak streaks w = some st) (h1 : 1 ≤ st.currentTier)
    (h6 : st.currentTier ≤ 6) :
    ∃ st', (processSell streaks w now).1 = some st' ∧
      st'.lastSellAt = some now ∧
      (2 ≤ st.currentTier →
        st'.currentTier = st.currentTier - 1 ∧
        st'.streakStart = now - tierThreshold (st.currentTier - 1) * 3600 ∧
        (now - st'.streakStart) / 3600 = tierThreshold (st.currentTier - 1)) ∧
      (st.currentTier = 1 → st'.currentTier = 1 ∧ st'.streakStart = now) := by
  simp only [processSell, hfind]
  refine ⟨_, rfl, rfl, ?_, ?_⟩
  · intro h2
    have hmax : max 1 (st.currentTier - 1) = st.currentTier - 1 := by omega
    refine ⟨hmax, by rw [hmax], ?_⟩
    simp only [hmax]
    ring
  · intro h0
    have hmax : max 1 (st.currentTier - 1) = 1 := by omega
    refine ⟨hmax, ?_⟩
    simp only [hmax, h0]
    simp [tierThreshold]

theorem processSell_demotes_witness :
    findStreak c4streaks "w" = some ⟨"w", 0, 3, none, 0⟩ ∧
    (∃ st', (processSell c4streaks "w" 7200).1 = some st' ∧
      st'.lastSellAt = some 7200 ∧
      (2 ≤ (3 : ℤ) →
        st'.currentTier = 3 - 1 ∧
        st'.streakStart = 7200 - tierThreshold (3 - 1) * 3600 ∧
        ((7200 : ℚ) - st'.streakStart) / 3600 = tierThreshold (3 - 1)) ∧
      ((3 : ℤ) = 1 → st'.currentTier = 1 ∧ st'.streakStart = 7200)) :=
  ⟨by with_unfolding_all decide,
   processSell_demotes_to_tier_floor c4streaks "w" 7200 ⟨"w", 0, 3, none, 0⟩
     (by with_unfolding_all decide) (by decide) (by decide)⟩

/-- C9: the streak-creation operation (`get_or_create_streak`, whose create
    path is `start_streak`) is idempotent: a wallet that already has a streak
    record gets that record back with the table — hence `streak_start` and
    `current_tier` — unchanged, and a wallet with no record gets a fresh
    tier-1 record with `streak_start = now`. -/
theorem getOrCreateStreak_never_resets
    (streaks : List StreakRow) (w : String) (now : ℚ) :
    (∀ st, findStreak streaks w = some st →
        getOrCreateStreak streaks w now = (st, streaks)) ∧
    (findStreak streaks w = none →
        getOrCreateStreak streaks w now =
          (⟨w, now, 1, none, now⟩, streaks ++ [⟨w, now, 1, none, now⟩])) := by
  constructor
  · intro st h
    simp [getOrCreateStreak, h]
  · intro h
    simp [getOrCreateStreak, h, startStreak]

theorem getOrCreateStreak_never_resets_witness :
    getOrCreateStreak c9streaks "w" 99 = (⟨"w", 5, 3, none, 5⟩, c9streaks) ∧
    getOrCreateStreak [] "v" 7 = (⟨"v", 7, 1, none, 7⟩, [⟨"v", 7, 1, none, 7⟩]) :=
  ⟨(getOrCreateStreak_never_resets c9streaks "w" 99).1 ⟨"w", 5, 3, none, 5⟩
     (by with_unfolding_all decide),
   (getOrCreateStreak_never_resets [] "v" 7).2 (by with_unfolding_all decide)⟩

/-- C7: when the pool amount is not positive, or no wallet is eligible, or the
    total hash power is zero, the allocator returns the explicit empty result
    `none` ("nothing to distribute"), and running the allocation persists no
    Distribution or recipient row — the state is returned unchanged. -/
theorem allocator_empty_cases_return_none
    (s : Settings) (e : Externals) (now : ℚ) (db : DBState) (po : Option ℤ)
    (h : po.getD e.poolBalance ≤ 0 ∨
      calculateAllHashPowers db.records db.streaks (distWindowStart db now) now
        (minBalanceTokens s e) none = [] ∨
      ((calculateAllHashPowers db.records db.streaks (distWindowStart db now) now
        (minBalanceTokens s e) none).map (fun hp => hp.hashPower)).sum = 0) :
    calculateDistribution s e now db po = none ∧
    manualDistribute s e now db po = (none, db) := by
  have hc : calculateDistribution s e now db po = none := by
    simp only [calculateDistribution]
    split_ifs with h1 h2 h3 <;>
      first
        | rfl
        | (exfalso; rcases h with h | h | h <;> simp_all)
  exact ⟨hc, by simp [manualDistribute, hc]⟩

theorem allocator_empty_cases_witness :
    calculateDistribution cfgStd extZero 100 dbEmpty (some 0) = none ∧
    manualDistribute cfgStd extZero 100 dbEmpty (some 0) = (none, dbEmpty) :=
  allocator_empty_cases_return_none cfgStd extZero 100 dbEmpty (some 0)
    (Or.inl (by with_unfolding_all decide))

/-- C6: in the manual-path scenario (pool worth $175 < $250 threshold, 2h < 24h
    since the prior distribution, positive pool, one eligible wallet) the
    allocator does produce a plan with trigger type "manual" and one
    recipient, but persisting it fails — the `valid_trigger` check constraint
    on the distributions table only admits 'threshold' and 'time' — so the
    execute step rolls back and returns `None` with the state unchanged,
    contradicting the documented triggerType ∈ {threshold, time, manual}. -/
theorem manual_trigger_violates_valid_trigger :
    (calculateDistribution cfgStd c6ext 7200 c6db none).map
      (fun p => (p.triggerType, p.recipientCount)) = some ("manual", 1) ∧
    manualDistribute cfgStd c6ext 7200 c6db none = (none, c6db) := by
  constructor <;> with_unfolding_all decide

/-- C1: the allocation entry point acquires no lock at all — for every state
    and every input its run leaves the `distribution_lock` row untouched — and
    in the concrete concurrency scenario two successive invocations (one legal
    interleaving of two concurrent workers) both succeed and persist two
    Distribution rows; the second invocation never observes a conflict
    outcome. -/
theorem checkAndDistribute_ignores_lock_and_double_pays :
    (∀ (s : Settings) (e : Externals) (now : ℚ) (db : DBState),
        ((checkAndDistribute s e now db).2).lock = db.lock) ∧
    c1run1.1.isSome = true ∧ c1run2.1.isSome = true ∧
    c1run2.2.distributions.length = 2 ∧ c1run2.2.lock = c1db.lock := by
  refine ⟨?_, ?_, ?_, ?_, ?_⟩
  · intro s e now db
    simp only [checkAndDistribute]
    split
    · cases h : calculateDistribution s e now db none with
      | none => rfl
      | some plan =>
        simp only [executeDistribution]
        split <;> rfl
    · rfl
  all_goals with_unfolding_all decide

/-- C5 counterexample: wallet "w" is in the excluded set of `c5db`, yet the
    distribution computed over that state pays the entire pool to "w": its
    balance record predates the exclusion and the allocator never consults
    `excluded_wallets` (only snapshot creation does). -/
theorem excluded_wallet_still_receives :
    c5db.excluded.map (fun x => x.wallet) = ["w"] ∧
    (calculateDistribution cfgStd extZero 100 c5db (some 57)).map
      (fun p => p.recipients.map (fun r => (r.wallet, r.amount))) =
      some [("w", 57)] := by
  exact ⟨rfl, by with_unfolding_all decide⟩

/-- C5 (amended): the exclusion filter applies at snapshot time — a wallet in
    the excluded set when a snapshot is taken gets no balance record from
    it — while the distribution computation itself never reads the excluded
    set (its result is invariant under any replacement of that set); hence a
    wallet whose balance records predate its exclusion can still appear as a
    recipient. -/
theorem excluded_filter_snapshot_only
    (accounts : List (String × ℤ)) (now : ℚ) (db : DBState) (w : String)
    (h : w ∈ db.excluded.map (fun x => x.wallet)) :
    (∀ r ∈ (takeSnapshot accounts now db).1, r.wallet ≠ w) ∧
    (∀ (s : Settings) (e : Externals) (now2 : ℚ) (po : Option ℤ)
        (x : List ExcludedRow),
      calculateDistribution s e now2 { db with excluded := x } po =
        calculateDistribution s e now2 db po) := by
  constructor
  · intro r hr
    unfold takeSnapshot at hr
    split at hr
    · simp at hr
    · simp only [List.mem_map] at hr
      obtain ⟨a, ha, rfl⟩ := hr
      simp only [List.mem_filter] at ha
      intro hw
      have hw' : a.1 = w := hw
      obtain ⟨x, hx, hxw⟩ := List.mem_map.mp h
      have hc := ha.2
      simp at hc
      exact hc x hx (by rw [hxw, hw'])
  · intro s e now2 po x
    rfl

theorem excluded_filter_snapshot_only_witness :
    (takeSnapshot [("w", 5), ("v", 7)] 3 c5wdb).1.all
      (fun r => !(r.wallet == "w")) = true := by
  have h := (excluded_filter_snapshot_only [("w", 5), ("v", 7)] 3 c5wdb "w"
    (by with_unfolding_all decide)).1
  rw [List.all_eq_true]
  intro r hr
  simpa using h r hr

theorem pyInt_eq_floor {q : ℚ} (h : 0 ≤ q) : pyInt q = Int.floor q := by
  unfold pyInt
  rw [if_neg (not_lt.mpr h)]

theorem pyInt_nonneg {q : ℚ} (h : 0 ≤ q) : 0 ≤ pyInt q := by
  rw [pyInt_eq_floor h]
  exact Int.floor_nonneg.mpr h

theorem tierMultiplier_nonneg (t : ℤ) : 0 ≤ tierMultiplier t := by
  unfold tierMultiplier
  split_ifs <;> norm_num

theorem getD_mem_or_eq {α : Type} (l : List α) (i : ℕ) (d : α) :
    l.getD i d ∈ l ∨ l.getD i d = d := by
  induction l generalizing i with
  | nil => right; rfl
  | cons x l ih =>
    cases i with
    | zero => left; exact List.mem_cons_self x l
    | succ n =>
      rcases ih n with h | h
      · left; exact List.mem_cons_of_mem x h
      · right; exact h

theorem le_foldl_of_step {β : Type} (g : ℚ → β → ℚ) (hg : ∀ a b, a ≤ g a b) :
    ∀ (l : List β) (acc : ℚ), acc ≤ l.foldl g acc := by
  intro l
  induction l with
  | nil => intro acc; exact le_refl acc
  | cons x l ih =>
    intro acc
    calc acc ≤ g acc x := hg acc x
    _ ≤ (x :: l).foldl g acc := ih (g acc x)

theorem computeTwab_nonneg (balances : List (ℚ × ℤ)) (start finish : ℚ)
    (h : ∀ p ∈ balances, 0 ≤ p.2) : 0 ≤ computeTwab balances start finish := by
  have hd : ∀ i, 0 ≤ (balances.getD i (0, 0)).2 := by
    intro i
    rcases getD_mem_or_eq balances i (0, 0) with hm | he
    · exact h _ hm
    · rw [he]
  simp only [computeTwab]
  split_ifs with h1 h2 h3
  · exact le_refl 0
  · exact le_refl 0
  · exact hd 0
  · apply pyInt_nonneg
    apply div_nonneg
    · apply le_foldl_of_step
      intro acc i
      dsimp only
      split
      · rename_i hdur
        have : (0 : ℚ) ≤ ((balances.getD i (0, 0)).2 : ℚ) *
            (min (segBounds balances start finish i).2 finish -
              max (segBounds balances start finish i).1 start) := by
          apply mul_nonneg
          · exact_mod_cast hd i
          · exact le_of_lt hdur
        linarith
      · exact le_refl acc
    · linarith [not_le.mp h2]

theorem mem_of_mem_limit {α : Type} (limit : Option ℕ) (l : List α) (a : α)
    (h : a ∈ (match limit with
               | some n => if n ≠ 0 then l.take n else l
               | none => l)) : a ∈ l := by
  rcases limit with _ | n
  · exact h
  · dsimp only at h
    split at h
    · exact List.take_subset _ _ h
    · exact h

theorem calculateAllHashPowers_hashPower_nonneg
    (records : List BalanceRec) (streaks : List StreakRow) (start finish : ℚ)
    (minB : ℤ) (limit : Option ℕ)
    (hbal : ∀ r ∈ records, 0 ≤ r.bal) :
    ∀ hp ∈ calculateAllHashPowers records streaks start finish minB limit,
      0 ≤ hp.hashPower := by
  intro hp hmem
  simp only [calculateAllHashPowers] at hmem
  split at hmem
  · simp at hmem
  · have hmem' := mem_of_mem_limit limit _ hp hmem
    rw [mem_isort, List.mem_filterMap] at hmem'
    obtain ⟨w, hw, hfw⟩ := hmem'
    split at hfw
    · exact absurd hfw (by simp)
    · injection hfw with hfw
      subst hfw
      dsimp only
      apply mul_nonneg
      · have h0 : 0 ≤ computeTwab ((walletGroup (isort lexLe
            (records.filter (recWindow start finish))) w).map
            (fun r => (r.ts, r.bal))) start finish := by
          apply computeTwab_nonneg
          intro p hp2
          simp only [walletGroup, List.mem_map] at hp2
          obtain ⟨r, hr, rfl⟩ := hp2
          have h1 := (List.mem_filter.mp hr).1
          have h2 := (mem_isort _ _ _).mp h1
          have h3 := (List.mem_filter.mp h2).1
          exact hbal r h3
        exact_mod_cast h0
      · exact tierMultiplier_nonneg _

theorem planRecipients_mem (pool : ℤ) (total : ℚ) (hps : List HashPowerInfo) :
    ∀ r ∈ planRecipients pool total hps,
      (∃ hp ∈ hps, r.hashPower = hp.hashPower) ∧ 0 < r.amount ∧
      r.amount = pyInt ((pool : ℚ) * (r.hashPower / total)) := by
  intro r hr
  simp only [planRecipients, List.mem_filterMap] at hr
  obtain ⟨hp, hhp, hf⟩ := hr
  split at hf
  · injection hf with hf
    subst hf
    rename_i hpos
    exact ⟨⟨hp, hhp, rfl⟩, hpos, rfl⟩
  · exact absurd hf (by simp)

theorem planRecipients_amounts (pool : ℤ) (total : ℚ) (hps : List HashPowerInfo) :
    ((planRecipients pool total hps).map (fun r => r.amount)) =
      (hps.map (fun hp =>
        if 0 < pyInt ((pool : ℚ) * (hp.hashPower / total))
        then pyInt ((pool : ℚ) * (hp.hashPower / total)) else 0)).filter
        (fun a => decide (0 < a)) := by
  induction hps with
  | nil => rfl
  | cons hp hps ih =>
    by_cases hc : 0 < pyInt ((pool : ℚ) * (hp.hashPower / total))
    · simp only [planRecipients, List.filterMap_cons, List.map_cons,
        if_pos hc, List.filter_cons] at ih ⊢
      rw [if_pos (by simpa using hc)]
      simpa [planRecipients] using ih
    · simp only [planRecipients, List.filterMap_cons, List.map_cons,
        if_neg hc, List.filter_cons] at ih ⊢
      rw [if_neg (by simpa using hc)]
      simpa [planRecipients] using ih

theorem filter_pos_sum (l : List ℤ) (h : ∀ a ∈ l, 0 ≤ a) :
    (l.filter (fun a => decide (0 < a))).sum = l.sum := by
  induction l with
  | nil => rfl
  | cons a l ih =>
    simp only [List.filter_cons]
    by_cases ha : 0 < a
    · rw [if_pos (by simpa using ha)]
      simp [List.sum_cons, ih (fun b hb => h b (List.mem_cons_of_mem _ hb))]
    · have ha0 : a = 0 := le_antisymm (not_lt.mp ha) (h a (List.mem_cons_self _ _))
      rw [if_neg (by simpa using ha)]
      simp [ha0, ih (fun b hb => h b (List.mem_cons_of_mem _ hb))]

theorem contrib_le {x : ℚ} (hx : 0 ≤ x) :
    ((if 0 < pyInt x then pyInt x else 0 : ℤ) : ℚ) ≤ x := by
  split
  · rw [pyInt_eq_floor hx]
    exact_mod_cast Int.floor_le x
  · simpa using hx

theorem contrib_gt {x : ℚ} (hx : 0 ≤ x) :
    x - 1 < ((if 0 < pyInt x then pyInt x else 0 : ℤ) : ℚ) := by
  split
  · rw [pyInt_eq_floor hx]
    exact_mod_cast Int.sub_one_lt_floor x
  · rename_i hn
    have h0 : pyInt x = 0 := le_antisymm (not_lt.mp hn) (pyInt_nonneg hx)
    rw [pyInt_eq_floor hx] at h0
    have hx1 : x < 1 := (Int.floor_eq_zero_iff.mp h0).2
    push_cast
    linarith

theorem sum_contrib_le (pool : ℤ) (total : ℚ) (hps : List HashPowerInfo)
    (hpool : 0 ≤ (pool : ℚ)) (htot : 0 < total)
    (hnn : ∀ hp ∈ hps, 0 ≤ hp.hashPower) :
    (((hps.map (fun hp => if 0 < pyInt ((pool : ℚ) * (hp.hashPower / total))
        then pyInt ((pool : ℚ) * (hp.hashPower / total)) else 0)).sum : ℚ)) ≤
      (pool : ℚ) * ((hps.map (fun hp => hp.hashPower)).sum) / total := by
  induction hps with
  | nil => simp
  | cons hp hps ih =>
    have hx : 0 ≤ (pool : ℚ) * (hp.hashPower / total) :=
      mul_nonneg hpool (div_nonneg (hnn hp (List.mem_cons_self _ _)) htot.le)
    have h1 := contrib_le hx
    have h2 := ih (fun q hq => hnn q (List.mem_cons_of_mem _ hq))
    simp only [List.map_cons, List.sum_cons]
    push_cast at h1 h2 ⊢
    have hsplit : (pool : ℚ) * (hp.hashPower +
          (hps.map (fun hp => hp.hashPower)).sum) / total
        = (pool : ℚ) * (hp.hashPower / total) +
          (pool : ℚ) * ((hps.map (fun hp => hp.hashPower)).sum) / total := by
      field_simp
      ring
    rw [hsplit]
    exact add_le_add h1 h2

theorem sum_contrib_gt (pool : ℤ) (total : ℚ) (hps : List HashPowerInfo)
    (hpool : 0 ≤ (pool : ℚ)) (htot : 0 < total)
    (hnn : ∀ hp ∈ hps, 0 ≤ hp.hashPower) (hne : hps ≠ []) :
    (pool : ℚ) * ((hps.map (fun hp => hp.hashPower)).sum) / total - hps.length <
      (((hps.map (fun hp => if 0 < pyInt ((pool : ℚ) * (hp.hashPower / total))
        then pyInt ((pool : ℚ) * (hp.hashPower / total)) else 0)).sum : ℚ)) := by
  induction hps with
  | nil => exact absurd rfl hne
  | cons hp hps ih =>
    have hx : 0 ≤ (pool : ℚ) * (hp.hashPower / total) :=
      mul_nonneg hpool (div_nonneg (hnn hp (List.mem_cons_self _ _)) htot.le)
    have h1 := contrib_gt hx
    by_cases hnil : hps = []
    · subst hnil
      simp only [List.map_cons, List.map_nil, List.sum_cons, List.sum_nil,
        List.length_cons, List.length_nil, add_zero, zero_add]
      push_cast at h1 ⊢
      rw [mul_div_assoc]
      linarith
    · have h2 := ih (fun q hq => hnn q (List.mem_cons_of_mem _ hq)) hnil
      simp only [List.map_cons, List.sum_cons, List.length_cons]
      push_cast at h1 h2 ⊢
      have hsplit : (pool : ℚ) * (hp.hashPower +
            (hps.map (fun hp => hp.hashPower)).sum) / total
          = (pool : ℚ) * (hp.hashPower / total) +
            (pool : ℚ) * ((hps.map (fun hp => hp.hashPower)).sum) / total := by
        field_simp
        ring
      rw [hsplit]
      linarith

theorem calculateDistribution_some_inv
    {s : Settings} {e : Externals} {now : ℚ} {db : DBState} {po : Option ℤ}
    {plan : DistributionPlan}
    (h : calculateDistribution s e now db po = some plan) :
    0 < plan.poolAmount ∧
    plan.totalHashpower =
      ((calculateAllHashPowers db.records db.streaks (distWindowStart db now) now
        (minBalanceTokens s e) none).map (fun hp => hp.hashPower)).sum ∧
    plan.totalHashpower ≠ 0 ∧
    calculateAllHashPowers db.records db.streaks (distWindowStart db now) now
      (minBalanceTokens s e) none ≠ [] ∧
    plan.recipients = planRecipients plan.poolAmount plan.totalHashpower
      (calculateAllHashPowers db.records db.streaks (distWindowStart db now) now
        (minBalanceTokens s e) none) ∧
    plan.recipientCount = plan.recipients.length := by
  simp only [calculateDistribution] at h
  split at h
  · exact absurd h (by simp)
  · split at h
    · exact absurd h (by simp)
    · split at h
      · exact absurd h (by simp)
      · rename_i h1 h2 h3
        injection h with h
        subst h
        refine ⟨?_, rfl, h3, h2, rfl, rfl⟩
        show (0 : ℤ) < po.getD e.poolBalance
        omega

/-- C2 (amended): for every computed distribution plan (positive pool,
    non-empty eligible set, positive total hash power, over balance records
    satisfying the non-negativity constraint), each recipient's amount equals
    floor(poolAmount × hashPower / totalHashPower) in exact arithmetic,
    recipients with a non-positive amount are dropped (every surviving amount
    is positive), the sum of recipient amounts is ≤ poolAmount, and the
    undistributed remainder (dust) is strictly less than the number of
    *eligible* wallets (the hash-power entries) — not necessarily less than
    the surviving recipientCount, which can be smaller. -/
theorem distribution_conservation_and_dust
    (s : Settings) (e : Externals) (now : ℚ) (db : DBState) (po : Option ℤ)
    (plan : DistributionPlan)
    (hbal : ∀ r ∈ db.records, 0 ≤ r.bal)
    (hplan : calculateDistribution s e now db po = some plan) :
    (∀ r ∈ plan.recipients, 0 < r.amount ∧
      r.amount = Int.floor ((plan.poolAmount : ℚ) * r.hashPower /
        plan.totalHashpower)) ∧
    (plan.recipients.map (fun r => r.amount)).sum ≤ plan.poolAmount ∧
    plan.poolAmount - (plan.recipients.map (fun r => r.amount)).sum <
      ((calculateAllHashPowers db.records db.streaks (distWindowStart db now) now
        (minBalanceTokens s e) none).length : ℤ) := by
  obtain ⟨hpool, htotEq, htotNe, hne, hrec, _⟩ := calculateDistribution_some_inv hplan
  have hnn : ∀ hp ∈ calculateAllHashPowers db.records db.streaks
      (distWindowStart db now) now (minBalanceTokens s e) none, 0 ≤ hp.hashPower :=
    calculateAllHashPowers_hashPower_nonneg _ _ _ _ _ _ hbal
  have htotNN : 0 ≤ plan.totalHashpower := by
    rw [htotEq]
    apply List.sum_nonneg
    intro x hx
    obtain ⟨hp, hhp, rfl⟩ := List.mem_map.mp hx
    exact hnn hp hhp
  have htotPos : 0 < plan.totalHashpower := lt_of_le_of_ne htotNN (Ne.symm htotNe)
  have hpoolQ : (0 : ℚ) ≤ (plan.poolAmount : ℚ) := by exact_mod_cast hpool.le
  refine ⟨?_, ?_⟩
  · intro r hr
    rw [hrec] at hr
    obtain ⟨⟨hp, hhp, hrhp⟩, hpos, hamt⟩ := planRecipients_mem _ _ _ r hr
    refine ⟨hpos, ?_⟩
    have hrnn : 0 ≤ r.hashPower := by rw [hrhp]; exact hnn hp hhp
    have hx : 0 ≤ (plan.poolAmount : ℚ) * (r.hashPower / plan.totalHashpower) :=
      mul_nonneg hpoolQ (div_nonneg hrnn htotPos.le)
    rw [hamt, pyInt_eq_floor hx, mul_div_assoc]
  · have hmap : plan.recipients.map (fun r => r.amount) =
        ((calculateAllHashPowers db.records db.streaks (distWindowStart db now)
          now (minBalanceTokens s e) none).map (fun hp =>
          if 0 < pyInt ((plan.poolAmount : ℚ) *
              (hp.hashPower / plan.totalHashpower))
          then pyInt ((plan.poolAmount : ℚ) *
              (hp.hashPower / plan.totalHashpower)) else 0)).filter
          (fun a => decide (0 < a)) := by
      rw [hrec]
      exact planRecipients_amounts _ _ _
    have hcontribNN : ∀ a ∈ ((calculateAllHashPowers db.records db.streaks
        (distWindowStart db now) now (minBalanceTokens s e) none).map (fun hp =>
        if 0 < pyInt ((plan.poolAmount : ℚ) *
            (hp.hashPower / plan.totalHashpower))
        then pyInt ((plan.poolAmount : ℚ) *
            (hp.hashPower / plan.totalHashpower)) else 0)), 0 ≤ a := by
      intro a ha
      obtain ⟨hp, hhp, rfl⟩ := List.mem_map.mp ha
      split
      · rename_i hlt
        exact hlt.le
      · exact le_refl 0
    have hsum : (plan.recipients.map (fun r => r.amount)).sum =
        ((calculateAllHashPowers db.records db.streaks (distWindowStart db now)
          now (minBalanceTokens s e) none).map (fun hp =>
          if 0 < pyInt ((plan.poolAmount : ℚ) *
              (hp.hashPower / plan.totalHashpower))
          then pyInt ((plan.poolAmount : ℚ) *
              (hp.hashPower / plan.totalHashpower)) else 0)).sum := by
      rw [hmap]
      exact filter_pos_sum _ hcontribNN
    have hle := sum_contrib_le plan.poolAmount plan.totalHashpower _ hpoolQ htotPos hnn
    have hgt := sum_contrib_gt plan.poolAmount plan.totalHashpower _ hpoolQ htotPos hnn hne
    have hpq : (plan.poolAmount : ℚ) *
        (((calculateAllHashPowers db.records db.streaks (distWindowStart db now)
          now (minBalanceTokens s e) none).map (fun hp => hp.hashPower)).sum) /
        plan.totalHashpower = (plan.poolAmount : ℚ) := by
      rw [← htotEq]
      field_simp
    rw [hpq] at hle hgt
    have hcast : (((plan.recipients.map (fun r => r.amount)).sum : ℤ) : ℚ) =
        ((((calculateAllHashPowers db.records db.streaks (distWindowStart db now)
          now (minBalanceTokens s e) none).map (fun hp =>
          if 0 < pyInt ((plan.poolAmount : ℚ) *
              (hp.hashPower / plan.totalHashpower))
          then pyInt ((plan.poolAmount : ℚ) *
              (hp.hashPower / plan.totalHashpower)) else 0)).sum : ℤ) : ℚ) :=
      congrArg (fun z : ℤ => (z : ℚ)) hsum
    constructor
    · have hq : (((plan.recipients.map (fun r => r.amount)).sum : ℤ) : ℚ) ≤
          ((plan.poolAmount : ℤ) : ℚ) := by rw [hcast]; exact hle
      exact Int.cast_le.mp hq
    · have hq : (((plan.poolAmount -
          (plan.recipients.map (fun r => r.amount)).sum : ℤ)) : ℚ) <
          (((((calculateAllHashPowers db.records db.streaks (distWindowStart db now)
            now (minBalanceTokens s e) none).length : ℕ) : ℤ)) : ℚ) := by
        rw [Int.cast_sub, hcast, Int.cast_natCast]
        linarith
      exact Int.cast_lt.mp hq

/-- C2 counterexample: with a pool of 1 raw unit and two wallets of equal hash
    power, both proportional shares floor to 0 and are dropped, so the computed
    plan has poolAmount 1, recipientCount 0 and recipient-amount sum 0: the
    undistributed remainder (dust = 1) is not strictly less than
    recipientCount = 0. -/
theorem dust_not_lt_recipientCount :
    (calculateDistribution cfgStd extZero 100 c2db (some 1)).map
      (fun p => (p.poolAmount, p.recipientCount,
        (p.recipients.map (fun r => r.amount)).sum)) = some (1, 0, 0) ∧
    ¬ ((1 : ℤ) - 0 < ((0 : ℕ) : ℤ)) := by
  constructor
  · with_unfolding_all decide
  · decide

theorem distribution_conservation_and_dust_witness :
    (c2wplan.recipients.map (fun r => r.amount)).sum ≤ c2wplan.poolAmount ∧
    c2wplan.poolAmount - (c2wplan.recipients.map (fun r => r.amount)).sum <
      ((calculateAllHashPowers c2wdb.records c2wdb.streaks
        (distWindowStart c2wdb 100) 100 (minBalanceTokens cfgStd extZero)
        none).length : ℤ) :=
  (distribution_conservation_and_dust cfgStd extZero 100 c2wdb (some 10) c2wplan
    (by decide) (by with_unfolding_all decide)).2

theorem pairwise_ordInsert {α : Type} (le : α → α → Bool)
    (htot : ∀ a b, le a b = true ∨ le b a = true)
    (htrans : ∀ a b c, le a b = true → le b c = true → le a c = true)
    (x : α) (l : List α) (hl : l.Pairwise (fun a b => le a b = true)) :
    (ordInsert le x l).Pairwise (fun a b => le a b = true) := by
  induction l with
  | nil => simp [ordInsert]
  | cons y l ih =>
    rw [List.pairwise_cons] at hl
    obtain ⟨hy, hl'⟩ := hl
    simp only [ordInsert]
    split
    · rename_i hxy
      rw [List.pairwise_cons]
      refine ⟨?_, List.pairwise_cons.mpr ⟨hy, hl'⟩⟩
      intro z hz
      rcases List.mem_cons.mp hz with rfl | hz
      · exact hxy
      · exact htrans x y z hxy (hy z hz)
    · rename_i hxy
      rw [List.pairwise_cons]
      constructor
      · intro z hz
        rcases (mem_ordInsert le x z l).mp hz with hzx | hz
        · rw [hzx]
          rcases htot x y with h | h
          · exact absurd h hxy
          · exact h
        · exact hy z hz
      · exact ih hl'

theorem pairwise_isort {α : Type} (le : α → α → Bool)
    (htot : ∀ a b, le a b = true ∨ le b a = true)
    (htrans : ∀ a b c, le a b = true → le b c = true → le a c = true)
    (l : List α) :
    (isort le l).Pairwise (fun a b => le a b = true) := by
  induction l with
  | nil => simp [isort]
  | cons x l ih => exact pairwise_ordInsert le htot htrans x _ ih

theorem lexLe_total (a b : BalanceRec) : lexLe a b = true ∨ lexLe b a = true := by
  simp only [lexLe, Bool.or_eq_true, Bool.and_eq_true, decide_eq_true_eq,
    beq_iff_eq]
  rcases lt_trichotomy a.wallet b.wallet with h | h | h
  · exact Or.inl (Or.inl h)
  · rcases le_total a.ts b.ts with ht | ht
    · exact Or.inl (Or.inr ⟨h, ht⟩)
    · exact Or.inr (Or.inr ⟨h.symm, ht⟩)
  · exact Or.inr (Or.inl h)

theorem lexLe_trans (a b c : BalanceRec)
    (h1 : lexLe a b = true) (h2 : lexLe b c = true) : lexLe a c = true := by
  simp only [lexLe, Bool.or_eq_true, Bool.and_eq_true, decide_eq_true_eq,
    beq_iff_eq] at h1 h2 ⊢
  rcases h1 with h1 | ⟨h1, h1t⟩ <;> rcases h2 with h2 | ⟨h2, h2t⟩
  · exact Or.inl (lt_trans h1 h2)
  · exact Or.inl (h2 ▸ h1)
  · exact Or.inl (h1 ▸ h2)
  · exact Or.inr ⟨h1.trans h2, h1t.trans h2t⟩

theorem lexLe_same_wallet {x y : BalanceRec} (hw : x.wallet = y.wallet) :
    lexLe x y = tsLe x y := by
  simp [lexLe, tsLe, hw, lt_irrefl]

theorem lexLe_lt_of_diff {x y : BalanceRec} (h : lexLe x y = true)
    (hne : x.wallet ≠ y.wallet) : x.wallet < y.wallet := by
  simp only [lexLe, Bool.or_eq_true, Bool.and_eq_true, decide_eq_true_eq,
    beq_iff_eq] at h
  rcases h with h | ⟨h, _⟩
  · exact h
  · exact absurd h hne

theorem filter_ordInsert_lex (w : String) (x : BalanceRec) (l : List BalanceRec)
    (hl : l.Pairwise (fun a b => lexLe a b = true)) :
    (ordInsert lexLe x l).filter (fun r => r.wallet == w) =
      if x.wallet == w
      then ordInsert tsLe x (l.filter (fun r => r.wallet == w))
      else l.filter (fun r => r.wallet == w) := by
  induction l with
  | nil =>
    simp only [ordInsert, List.filter_cons, List.filter_nil]
  | cons y l ih =>
    rw [List.pairwise_cons] at hl
    obtain ⟨hy, hl'⟩ := hl
    simp only [ordInsert]
    split
    · rename_i hxy
      by_cases hpx : (x.wallet == w) = true
      · by_cases hpy : (y.wallet == w) = true
        · have hxyw : x.wallet = y.wallet := by
            rw [beq_iff_eq] at hpx hpy
            rw [hpx, hpy]
          have hts : tsLe x y = true := by
            rw [← lexLe_same_wallet hxyw]
            exact hxy
          simp [List.filter_cons, hpx, hpy, hts, ordInsert]
        · have hpx' : x.wallet = w := beq_iff_eq.mp hpx
          have hpy' : y.wallet ≠ w := by
            intro hc
            exact hpy (beq_iff_eq.mpr hc)
          have hxlty : x.wallet < y.wallet :=
            lexLe_lt_of_diff hxy (by rw [hpx']; exact fun hc => hpy' hc.symm)
          have hfl : l.filter (fun r => r.wallet == w) = [] := by
            rw [List.filter_eq_nil]
            intro z hz hc
            have hzw : z.wallet = w := beq_iff_eq.mp hc
            have hyz := hy z hz
            by_cases hyzw : y.wallet = z.wallet
            · exact hpy' (hyzw.trans hzw)
            · have : y.wallet < z.wallet := lexLe_lt_of_diff hyz hyzw
              rw [hzw] at this
              rw [hpx'] at hxlty
              exact absurd hxlty (asymm this)
          simp [List.filter_cons, hpx, hpy, hfl, ordInsert]
      · simp [List.filter_cons, hpx]
    · rename_i hxy
      have ihl := ih hl'
      by_cases hpx : (x.wallet == w) = true
      · rw [if_pos hpx] at ihl
        rw [if_pos hpx]
        by_cases hpy : (y.wallet == w) = true
        · have hxyw : x.wallet = y.wallet := by
            rw [beq_iff_eq] at hpx hpy
            rw [hpx, hpy]
          have hts0 : tsLe x y = false := by
            rw [← lexLe_same_wallet hxyw]
            exact Bool.not_eq_true _ ▸ (by simpa using hxy)
          simp [List.filter_cons, hpy, ihl, ordInsert, hts0]
        · simp [List.filter_cons, hpy, ihl]
      · rw [if_neg hpx] at ihl
        rw [if_neg hpx]
        simp [List.filter_cons, ihl]

theorem filter_isort_lex (w : String) (l : List BalanceRec) :
    (isort lexLe l).filter (fun r => r.wallet == w) =
      isort tsLe (l.filter (fun r => r.wallet == w)) := by
  induction l with
  | nil => rfl
  | cons x l ih =>
    simp only [isort]
    rw [filter_ordInsert_lex w x _ (pairwise_isort lexLe lexLe_total lexLe_trans l)]
    rw [List.filter_cons]
    by_cases hpx : (x.wallet == w) = true
    · rw [if_pos hpx, if_pos hpx, ih]
      rfl
    · rw [if_neg hpx, if_neg hpx]
      exact ih

theorem walletGroup_isort_eq_single (records : List BalanceRec) (w : String)
    (start finish : ℚ) :
    walletGroup (isort lexLe (records.filter (recWindow start finish))) w =
      isort tsLe (records.filter
        (fun r => r.wallet == w && recWindow start finish r)) := by
  unfold walletGroup
  rw [filter_isort_lex]
  congr 1
  rw [List.filter_filter]

/-- C10: the batch path and the single-wallet path agree — every hash-power
    entry reported by `calculate_all_hash_powers` carries, for its wallet,
    exactly the TWAB that the single-wallet `calculate_twab` computes over the
    same window: both reduce the same per-wallet (timestamp, balance) list
    (timestamps in [start, end], ascending) with the same `_compute_twab`. -/
theorem batch_twab_agrees_with_single
    (records : List BalanceRec) (streaks : List StreakRow)
    (start finish : ℚ) (minB : ℤ) (limit : Option ℕ) (hp : HashPowerInfo)
    (hmem : hp ∈ calculateAllHashPowers records streaks start finish minB limit) :
    hp.twab = calculateTwab records hp.wallet start finish := by
  simp only [calculateAllHashPowers] at hmem
  split at hmem
  · simp at hmem
  · have hmem' := mem_of_mem_limit limit _ hp hmem
    rw [mem_isort, List.mem_filterMap] at hmem'
    obtain ⟨w, hw, hfw⟩ := hmem'
    split at hfw
    · exact absurd hfw (by simp)
    · injection hfw with hfw
      subst hfw
      show computeTwab ((walletGroup (isort lexLe
          (records.filter (recWindow start finish))) w).map
          (fun r => (r.ts, r.bal))) start finish =
        calculateTwab records w start finish
      unfold calculateTwab
      rw [walletGroup_isort_eq_single]

theorem batch_twab_agrees_with_single_witness :
    c10hp ∈ calculateAllHashPowers c10recs [] 0 100 0 none ∧
    c10hp.twab = calculateTwab c10recs "w" 0 100 :=
  ⟨by with_unfolding_all decide,
   batch_twab_agrees_with_single c10recs [] 0 100 0 none c10hp
     (by with_unfolding_all decide)⟩
